import Mathlib

/-
Verification of the agent-orchestrator repository (tracker-gitlab plugin,
core utilities and the plugin registry).

Shallow embedding conventions:
  * JavaScript strings are modelled as Lean `String` (or `List Char` where
    character-level reasoning is needed, for `shellEscape`).
  * `undefined`/absent values are modelled with `Option`.
  * Throwing functions return `Except String`.
  * Node `Buffer`s (SHA-256 digests) are modelled as `List Nat` of byte values.
  * The external SHA-256 function (node:crypto) is a parameter of the
    embedding; facts needed of it (fixed 32-byte output, collision freedom)
    are explicit hypotheses of the theorems.
-/

/-! ## JavaScript primitives -/

/-- JS `a ?? b` on possibly-undefined values. -/
def jsOr {α : Type} (a b : Option α) : Option α :=
  match a with
  | some x => some x
  | none => b

/-- JS `String(v)` applied to a possibly-undefined string: `String(undefined)`
is the literal string "undefined". -/
def jsString (v : Option String) : String :=
  match v with
  | some s => s
  | none => "undefined"

/-- JS `s.toLowerCase()` modelled character-wise. -/
def jsToLower (s : String) : String := ⟨s.data.map Char.toLower⟩

/-- JS truthiness of an optional string: `undefined` and `""` are falsy. -/
def jsTruthy (s : Option String) : Bool :=
  match s with
  | none => false
  | some str => str ≠ ""

/-! ## Webhook handler
Embeds `packages/plugins/tracker-gitlab/src/webhookHandler.ts` (the handler
exported by the plugin's `index.ts`). -/

/-- Model of GitLab `object_attributes` (only the fields the handler reads;
`extra` stands for the remaining opaque attributes). -/
structure ObjAttrs where
  action : Option String
  iid : Option Nat
  extra : String
deriving DecidableEq, Repr

/-- Model of a GitLab webhook JSON payload. -/
structure WebhookPayload where
  object_attributes : Option ObjAttrs
  project : Option String
deriving DecidableEq, Repr

/-- The normalized event union of webhookHandler.ts. -/
inductive GitLabWebhookEvent where
  | issue (action : String) (issue : Option ObjAttrs) (project : Option String)
  | merge_request (action : String) (mr : Option ObjAttrs) (project : Option String)
  | unknown (payload : WebhookPayload)
deriving DecidableEq, Repr

/-- Model of `crypto.timingSafeEqual` wrapped in the handler's try/catch:
`timingSafeEqual` throws on buffers of different length (the catch turns that
into `false`); on same-length buffers it decides equality. -/
def timingSafeEqualChecked (a b : List Nat) : Bool :=
  if a.length = b.length then a == b else false

/-- The token header lookup: `headers["x-gitlab-token"] ?? headers["X-Gitlab-Token"]`. -/
def tokenHeaderOf (headers : String → Option String) : Option String :=
  jsOr (headers ("x-gitlab-token")) (headers ("X-Gitlab-Token"))

/-- The event header lookup with default:
`headers["x-gitlab-event"] ?? headers["X-Gitlab-Event"] ?? ""`. -/
def eventNameOf (headers : String → Option String) : String :=
  (jsOr (headers ("x-gitlab-event")) (headers ("X-Gitlab-Event"))).getD ""

/-- The action field of a payload: `payload.object_attributes?.action ?? "unknown"`. -/
def actionOf (payload : WebhookPayload) : String :=
  (payload.object_attributes.bind ObjAttrs.action).getD "unknown"

/-- The signature-validation block of `handleWebhook` (webhookHandler.ts
lines 22-47).  `sha256` stands for
`crypto.createHash("sha256").update(· , "utf8").digest()`. -/
def webhookValidate (sha256 : String → List Nat) (headers : String → Option String)
    (secret : Option String) : Except String Unit :=
  let tokenHeader := tokenHeaderOf headers
  if jsTruthy secret then
    -- Normalize to strings (empty string when header missing) so the same
    -- operations run regardless of presence of the header.
    let headerStr := tokenHeader.getD ""
    let secretStr := secret.getD ""
    -- Hash both values to fixed-length buffers, then timingSafeEqual.
    let headerHash := sha256 headerStr
    let secretHash := sha256 secretStr
    let ok := timingSafeEqualChecked headerHash secretHash
    if ok then Except.ok () else Except.error "Invalid webhook token"
  else Except.ok ()

/-- The event-mapping block of `handleWebhook` (webhookHandler.ts
lines 49-67). -/
def normalizeWebhookEvent (headers : String → Option String)
    (payload : WebhookPayload) : GitLabWebhookEvent :=
  let event := eventNameOf headers
  if event = "Issue Hook" then
    GitLabWebhookEvent.issue (actionOf payload)
      payload.object_attributes payload.project
  else if event = "Merge Request Hook" then
    GitLabWebhookEvent.merge_request (actionOf payload)
      payload.object_attributes payload.project
  else
    GitLabWebhookEvent.unknown payload

/-- Embedding of `handleWebhook` (webhookHandler.ts): validate the signature
header, then map the payload to the normalized event shape. -/
def handleWebhook (sha256 : String → List Nat) (headers : String → Option String)
    (payload : WebhookPayload) (secret : Option String) :
    Except String GitLabWebhookEvent :=
  match webhookValidate sha256 headers secret with
  | Except.error e => Except.error e
  | Except.ok _ => Except.ok (normalizeWebhookEvent headers payload)

/-- Cryptographic operations performed by the validation block of
`handleWebhook`, used to state its constant-time behaviour.  The
`timingSafeCompare` operation records the lengths of the two buffers it
receives (its running time depends only on those lengths). -/
inductive CryptoOp where
  | readTokenHeader
  | normalizeHeader
  | sha256Hash
  | timingSafeCompare (lenA lenB : Nat)
deriving DecidableEq, Repr

/-- The sequence of operations the validation block of `handleWebhook` runs
for a configured secret (webhookHandler.ts lines 22-43): read the header,
normalize a missing header to the empty string, hash header and secret, and
compare the two digests with a timing-safe comparison. -/
def webhookValidationOps (sha256 : String → List Nat)
    (headers : String → Option String) (secret : String) : List CryptoOp :=
  let tokenHeader := tokenHeaderOf headers
  let headerStr := tokenHeader.getD ""
  let secretStr := secret
  let headerHash := sha256 headerStr
  let secretHash := sha256 secretStr
  [CryptoOp.readTokenHeader, CryptoOp.normalizeHeader,
   CryptoOp.sha256Hash, CryptoOp.sha256Hash,
   CryptoOp.timingSafeCompare headerHash.length secretHash.length]

/-- Cost model: producing a digest is a unit-cost external call, while the
timing-safe comparison costs the length of the compared buffers (its running
time is independent of their contents, dependent only on length). -/
def cryptoOpCost : CryptoOp → Nat
  | CryptoOp.timingSafeCompare lenA _ => lenA
  | _ => 1

/-- Total rejection-path cost of the validation block. -/
def webhookValidationCost (sha256 : String → List Nat)
    (headers : String → Option String) (secret : String) : Nat :=
  ((webhookValidationOps sha256 headers secret).map cryptoOpCost).sum

/-- Whether an `Except` result is a success. -/
def exceptOk {ε α : Type} : Except ε α → Bool
  | Except.ok _ => true
  | Except.error _ => false

/-! ## GitLab REST client
Embeds the retry/backoff/timeout request loop shared by
`packages/plugins/tracker-gitlab/src/gitlabClient.ts` (fetch-based region,
lines 79-172) and `src/client.ts` (lines 35-101); the two differ only in
timer cancellation, modelled separately below. -/

/-- Network-level error names/codes distinguished by the catch block. -/
inductive NetErrKind where
  | abortErr
  | timeoutErr
  | econnreset
  | enotfound
  | otherErr
deriving DecidableEq, Repr

/-- One attempt's observable outcome: an HTTP response (status and body text)
or a thrown network error. -/
inductive FetchResp where
  | status (code : Nat) (body : String)
  | netErr (kind : NetErrKind)
deriving DecidableEq, Repr

/-- Errors surfaced by the request loop. `httpError` is the
`GitLab API ${status} ...` throw; `fuelOut` is an unreachable sentinel for
the fuel-based embedding of the `while (true)` loop. -/
inductive ReqError where
  | httpError (code : Nat) (body : String)
  | netError (kind : NetErrKind)
  | fuelOut
deriving DecidableEq, Repr

deriving instance DecidableEq for Except

/-- Result of a request: outcome, number of attempts made, and the backoff
delays slept between attempts. -/
structure ReqOutcome where
  result : Except ReqError String
  attempts : Nat
  backoffs : List Nat
deriving DecidableEq, Repr

/-- The catch block's retryability test:
`name === "AbortError" || name === "TimeoutError" || code === "ECONNRESET" || code === "ENOTFOUND"`. -/
def retryableNet (k : NetErrKind) : Bool :=
  k == NetErrKind.abortErr || k == NetErrKind.timeoutErr ||
  k == NetErrKind.econnreset || k == NetErrKind.enotfound

/-- Spec §7 taxonomy: 429/5xx are transient external errors. -/
def isTransientStatus (s : Nat) : Bool := s == 429 || 500 ≤ s

/-- One iteration of the `while (true)` request loop, with fuel for
termination (the loop body only continues while `attempt < maxRetries`, so
fuel `maxRetries` at `attempt = 1` never runs out).  `resp i` is the outcome
of the i-th attempt, `jitter i` the value of `Math.floor(Math.random()*100)`
sampled before the i-th backoff.  JSON parsing of a 2xx body is abstracted as
returning the body text. -/
def reqGo (maxRetries : Nat) (resp : Nat → FetchResp) (jitter : Nat → Nat) :
    Nat → Nat → ReqOutcome
  | 0, attempt => ⟨Except.error ReqError.fuelOut, attempt, []⟩
  | fuel + 1, attempt =>
    match resp attempt with
    | FetchResp.status code body =>
      if 200 ≤ code ∧ code < 300 then
        ⟨Except.ok body, attempt, []⟩
      else if (code = 429 ∨ 500 ≤ code) ∧ attempt < maxRetries then
        let backoff := 100 * 2 ^ (attempt - 1) + jitter attempt
        let rest := reqGo maxRetries resp jitter fuel (attempt + 1)
        ⟨rest.result, rest.attempts, backoff :: rest.backoffs⟩
      else
        ⟨Except.error (ReqError.httpError code body), attempt, []⟩
    | FetchResp.netErr k =>
      if retryableNet k ∧ attempt < maxRetries then
        let backoff := 100 * 2 ^ (attempt - 1) + jitter attempt
        let rest := reqGo maxRetries resp jitter fuel (attempt + 1)
        ⟨rest.result, rest.attempts, backoff :: rest.backoffs⟩
      else
        ⟨Except.error (ReqError.netError k), attempt, []⟩

/-- `GitLabClient.request`: the loop entered at `attempt = 1`. -/
def gitlabRequest (maxRetries : Nat) (resp : Nat → FetchResp)
    (jitter : Nat → Nat) : ReqOutcome :=
  reqGo maxRetries resp jitter maxRetries 1

/-- Timer operations observable in a request: starting the per-attempt
timeout timer and cancelling it. -/
inductive TimerOp where
  | start (ms : Nat)
  | cancel
deriving DecidableEq, Repr

/-- Timer trace of the gitlabClient.ts request loop: each attempt starts the
timeout timer, and the `finally` block cancels it on every exit from the try
block (return, throw, and the `continue` of the retry paths). -/
def gitlabReqTimers (timeoutMs maxRetries : Nat) (resp : Nat → FetchResp) :
    Nat → Nat → List TimerOp
  | 0, _ => []
  | fuel + 1, attempt =>
    match resp attempt with
    | FetchResp.status code _ =>
      if 200 ≤ code ∧ code < 300 then
        [TimerOp.start timeoutMs, TimerOp.cancel]
      else if (code = 429 ∨ 500 ≤ code) ∧ attempt < maxRetries then
        TimerOp.start timeoutMs :: TimerOp.cancel ::
          gitlabReqTimers timeoutMs maxRetries resp fuel (attempt + 1)
      else
        [TimerOp.start timeoutMs, TimerOp.cancel]
    | FetchResp.netErr k =>
      if retryableNet k ∧ attempt < maxRetries then
        TimerOp.start timeoutMs :: TimerOp.cancel ::
          gitlabReqTimers timeoutMs maxRetries resp fuel (attempt + 1)
      else
        [TimerOp.start timeoutMs, TimerOp.cancel]

/-- Timer trace of a whole gitlabClient.ts request. -/
def gitlabRequestTimers (timeoutMs maxRetries : Nat)
    (resp : Nat → FetchResp) : List TimerOp :=
  gitlabReqTimers timeoutMs maxRetries resp maxRetries 1

/-- Timer trace of the client.ts request loop (the client imported by
adapter.ts): each attempt runs
`const timer = setTimeout(this.timeoutMs).then(() => controller.abort());`
and no path ever cancels that timer. -/
def clientReqTimers (timeoutMs maxRetries : Nat) (resp : Nat → FetchResp) :
    Nat → Nat → List TimerOp
  | 0, _ => []
  | fuel + 1, attempt =>
    match resp attempt with
    | FetchResp.status code _ =>
      if 200 ≤ code ∧ code < 300 then
        [TimerOp.start timeoutMs]
      else if (code = 429 ∨ 500 ≤ code) ∧ attempt < maxRetries then
        TimerOp.start timeoutMs ::
          clientReqTimers timeoutMs maxRetries resp fuel (attempt + 1)
      else
        [TimerOp.start timeoutMs]
    | FetchResp.netErr k =>
      if retryableNet k ∧ attempt < maxRetries then
        TimerOp.start timeoutMs ::
          clientReqTimers timeoutMs maxRetries resp fuel (attempt + 1)
      else
        [TimerOp.start timeoutMs]

/-- Timer trace of a whole client.ts request. -/
def clientRequestTimers (timeoutMs maxRetries : Nat)
    (resp : Nat → FetchResp) : List TimerOp :=
  clientReqTimers timeoutMs maxRetries resp maxRetries 1

/-- Number of timers started in a trace. -/
def countStarts (t : List TimerOp) : Nat :=
  (t.filter fun op => match op with | TimerOp.start _ => true | _ => false).length

/-- Number of timer cancellations in a trace. -/
def countCancels (t : List TimerOp) : Nat :=
  (t.filter fun op => match op with | TimerOp.cancel => true | _ => false).length

/-- Timers still pending when the request finishes. -/
def pendingTimers (t : List TimerOp) : Nat := countStarts t - countCancels t

/-- Client construction defaults (gitlabClient.ts / client.ts constructor):
`timeoutMs ?? 15_000`, `maxRetries ?? 3`. -/
structure GitLabClientCfg where
  timeoutMs : Option Nat
  maxRetries : Option Nat
deriving DecidableEq, Repr

/-- The effective per-call timeout of a constructed client. -/
def effectiveTimeoutMs (cfg : GitLabClientCfg) : Nat := cfg.timeoutMs.getD 15000

/-- The effective retry bound of a constructed client. -/
def effectiveMaxRetries (cfg : GitLabClientCfg) : Nat := cfg.maxRetries.getD 3

/-- Whether a response is a retryable server error (429 or 5xx). -/
def isServerError : FetchResp → Bool
  | FetchResp.status code _ => code == 429 || 500 ≤ code
  | FetchResp.netErr _ => false

/-- Whether a response is a 2xx success. -/
def isSuccessResp : FetchResp → Bool
  | FetchResp.status code _ => 200 ≤ code && code < 300
  | FetchResp.netErr _ => false

/-- The body text of a response. -/
def respBody : FetchResp → String
  | FetchResp.status _ body => body
  | FetchResp.netErr _ => ""

/-! ## Tracker adapter
Embeds `mapState` and the `isCompleted` check of adapter.ts (and of the
part_003 revision, which are identical on these functions). -/

/-- The normalized issue state union `state ∈ {open, closed}`. -/
inductive IssueState where
  | openState
  | closedState
deriving DecidableEq, Repr

/-- `mapState` (adapter.ts lines 26-31). -/
def mapState (state : Option String) : IssueState :=
  let s := jsToLower (state.getD "")
  if s = "closed" then IssueState.closedState
  else if s = "reopened" ∨ s = "opened" then IssueState.openState
  else IssueState.openState

/-- The `isCompleted` comparison `String(data.state).toLowerCase() === "closed"`. -/
def isCompletedCheck (state : Option String) : Bool :=
  jsToLower (jsString state) == "closed"

/-- Upstream GitLab issue JSON fields read by the adapter. -/
structure GitLabIssueData where
  iid : Nat
  title : String
  description : Option String
  web_url : Option String
  state : Option String
  labels : List String
  assigneeUsernames : List String
deriving DecidableEq, Repr

/-- The normalized issue shape produced by the tracker. -/
structure Issue where
  id : String
  title : String
  description : String
  url : String
  state : IssueState
  labels : List String
  assignee : Option String
deriving DecidableEq, Repr

/-- The issue-record construction shared by `getIssue`, `listIssues` and
`createIssue` in adapter.ts. -/
def issueFromData (d : GitLabIssueData) : Issue :=
  { id := toString d.iid
    title := d.title
    description := d.description.getD ""
    url := d.web_url.getD ""
    state := mapState d.state
    labels := d.labels
    assignee := d.assigneeUsernames.head? }

/-! ## Plugin registry
Embeds `createPluginRegistry` / `loadBuiltins` (plugin-registry.ts, the
region following the tests in src/unnamed/part_004). -/

/-- The plugin slots of the `PluginSlot` union. -/
inductive PluginSlot where
  | runtime
  | agent
  | workspace
  | tracker
  | scm
  | notifier
  | terminal
deriving DecidableEq, Repr

/-- The string value of each slot (the TS union is a string union). -/
def slotStr : PluginSlot → String
  | PluginSlot.runtime => "runtime"
  | PluginSlot.agent => "agent"
  | PluginSlot.workspace => "workspace"
  | PluginSlot.tracker => "tracker"
  | PluginSlot.scm => "scm"
  | PluginSlot.notifier => "notifier"
  | PluginSlot.terminal => "terminal"

/-- Plugin manifest metadata. -/
structure PluginManifest where
  name : String
  slot : PluginSlot
  description : String
  version : String
deriving DecidableEq, Repr

/-- What every plugin exports: a manifest and a `create` factory taking an
optional config.  `C` is the config type, `I` the instance type. -/
structure PluginModule (C I : Type) where
  manifest : PluginManifest
  create : Option C → I

/-- `makeKey(slot, name)`: the string key `` `${slot}:${name}` ``. -/
def makeKey (slot : PluginSlot) (name : String) : String :=
  slotStr slot ++ ":" ++ name

/-- JS `key.startsWith(prefixStr)` modelled as a character-prefix test. -/
def jsStartsWith (s prefixStr : String) : Bool :=
  prefixStr.data.isPrefixOf s.data

/-- The registry's `Map` from key to `{ manifest, instance }`, modelled as an
association list in insertion order. -/
abbrev Registry (I : Type) : Type := List (String × PluginManifest × I)

/-- The empty registry (`new Map()`). -/
def emptyRegistry (I : Type) : Registry I := []

/-- JS `Map.prototype.get`. -/
def mapGet {I : Type} (r : Registry I) (k : String) : Option (PluginManifest × I) :=
  (r.find? fun p => p.1 == k).map (fun p => p.2)

/-- JS `Map.prototype.set`: replaces the value at an existing key in place
(keeping insertion order), otherwise appends. -/
def mapSet {I : Type} (r : Registry I) (k : String) (v : PluginManifest × I) :
    Registry I :=
  if r.any (fun p => p.1 == k) then
    r.map fun p => if p.1 == k then (k, v) else p
  else
    r ++ [(k, v)]

/-- `register(plugin, config)`: binds the manifest's (slot, name) key to the
one instance constructed by `plugin.create(config)`. -/
def registryRegister {C I : Type} (plugin : PluginModule C I) (config : Option C)
    (r : Registry I) : Registry I :=
  mapSet r (makeKey plugin.manifest.slot plugin.manifest.name)
    (plugin.manifest, plugin.create config)

/-- `get(slot, name)`: pure lookup, `entry ? entry.instance : null`. -/
def registryGet {I : Type} (slot : PluginSlot) (name : String) (r : Registry I) :
    Option I :=
  (mapGet r (makeKey slot name)).map (fun e => e.2)

/-- `list(slot)`: manifests of entries whose key starts with `` `${slot}:` ``,
in insertion order. -/
def registryList {I : Type} (slot : PluginSlot) (r : Registry I) :
    List PluginManifest :=
  ((r.filter fun p => jsStartsWith p.1 (slotStr slot ++ ":")).map
    fun p => p.2.1)

/-- `get` as a state transformer (it reads the map and performs no mutation). -/
def registryGetSt {I : Type} (slot : PluginSlot) (name : String) (r : Registry I) :
    Option I × Registry I :=
  (registryGet slot name r, r)

/-- `list` as a state transformer (it iterates the map and performs no mutation). -/
def registryListSt {I : Type} (slot : PluginSlot) (r : Registry I) :
    List PluginManifest × Registry I :=
  (registryList slot r, r)

/-- Applying a sequence of `register` calls to the empty registry. -/
def applyRegisters {C I : Type} (ops : List (PluginModule C I × Option C)) :
    Registry I :=
  ops.foldl (fun r op => registryRegister op.1 op.2 r) (emptyRegistry I)

/-- One entry of the static `BUILTIN_PLUGINS` manifest. -/
structure BuiltinEntry where
  slot : PluginSlot
  name : String
  pkg : String
deriving DecidableEq, Repr

/-- The static built-in plugin list of plugin-registry.ts. -/
def BUILTIN_PLUGINS : List BuiltinEntry := [
  ⟨PluginSlot.runtime, "tmux", "@agent-orchestrator/plugin-runtime-tmux"⟩,
  ⟨PluginSlot.runtime, "process", "@agent-orchestrator/plugin-runtime-process"⟩,
  ⟨PluginSlot.agent, "claude-code", "@agent-orchestrator/plugin-agent-claude-code"⟩,
  ⟨PluginSlot.agent, "codex", "@agent-orchestrator/plugin-agent-codex"⟩,
  ⟨PluginSlot.agent, "aider", "@agent-orchestrator/plugin-agent-aider"⟩,
  ⟨PluginSlot.workspace, "worktree", "@agent-orchestrator/plugin-workspace-worktree"⟩,
  ⟨PluginSlot.workspace, "clone", "@agent-orchestrator/plugin-workspace-clone"⟩,
  ⟨PluginSlot.tracker, "github", "@agent-orchestrator/plugin-tracker-github"⟩,
  ⟨PluginSlot.tracker, "linear", "@agent-orchestrator/plugin-tracker-linear"⟩,
  ⟨PluginSlot.scm, "github", "@agent-orchestrator/plugin-scm-github"⟩,
  ⟨PluginSlot.notifier, "desktop", "@agent-orchestrator/plugin-notifier-desktop"⟩,
  ⟨PluginSlot.notifier, "slack", "@agent-orchestrator/plugin-notifier-slack"⟩,
  ⟨PluginSlot.notifier, "webhook", "@agent-orchestrator/plugin-notifier-webhook"⟩,
  ⟨PluginSlot.terminal, "iterm2", "@agent-orchestrator/plugin-terminal-iterm2"⟩,
  ⟨PluginSlot.terminal, "web", "@agent-orchestrator/plugin-terminal-web"⟩]

/-- One iteration of the `loadBuiltins` loop.  `imp pkg` models
`await import(pkg)` (`Except.error` = module absent / import threw); the
whole iteration body sits in a try whose catch skips the plugin, so a
failed import leaves the accumulator unchanged.  `cfgFor` models
`orchestratorConfig ? extractPluginConfig(slot, name, config) : undefined`. -/
def loadBuiltinsStep {C I : Type} (imp : String → Except String (PluginModule C I))
    (cfgFor : BuiltinEntry → Option C) (acc : Registry I) (b : BuiltinEntry) :
    Registry I :=
  match imp b.pkg with
  | Except.error _ => acc
  | Except.ok m => registryRegister m (cfgFor b) acc

/-- `loadBuiltins`: fold the loop body over the static manifest. -/
def loadBuiltins {C I : Type} (imp : String → Except String (PluginModule C I))
    (cfgFor : BuiltinEntry → Option C) (r : Registry I) : Registry I :=
  BUILTIN_PLUGINS.foldl (loadBuiltinsStep imp cfgFor) r

/-- `loadBuiltins` with explicit error propagation: the per-iteration
try/catch converts any import failure into a skip, so no error ever
escapes. -/
def loadBuiltinsTry {C I : Type} (imp : String → Except String (PluginModule C I))
    (cfgFor : BuiltinEntry → Option C) (r : Registry I) :
    Except String (Registry I) :=
  BUILTIN_PLUGINS.foldlM (fun acc b =>
    match imp b.pkg with
    | Except.error _ => Except.ok acc
    | Except.ok m => Except.ok (registryRegister m (cfgFor b) acc)) r

/-! ## Shell escaping
Embeds `shellEscape` (packages/core/src/utils.ts), with JS strings as
character lists, together with a model of POSIX shell quoting semantics. -/

/-- The global regex replacement `arg.replace(/'/g, "'\\''")` (each single
quote becomes the four characters `'\''`). -/
def escQuote : List Char → List Char
  | [] => []
  | c :: cs =>
    (if c = '\'' then ['\'', '\\', '\'', '\''] else [c]) ++ escQuote cs

/-- `shellEscape`: wrap in single quotes with embedded quotes escaped. -/
def shellEscape (arg : List Char) : List Char :=
  '\'' :: (escQuote arg ++ ['\''])

/-- `shellEscape` on Lean strings (the TS function's type). -/
def shellEscapeStr (arg : String) : String := ⟨shellEscape arg.data⟩

/-- Quoting mode of the POSIX word interpreter. -/
inductive QuoteMode where
  | outside
  | single
deriving DecidableEq, Repr

/-- Characters that are special to a POSIX shell when unquoted (word
separators, operators, expansion and globbing characters).  An escaped-quote
sequence produced by `shellEscape` must never expose one of these outside
quotes. -/
def isShellSpecial (c : Char) : Bool :=
  c ∈ [' ', '\t', '\n', '|', '&', ';', '<', '>', '(', ')', '$', '`', '"',
       '*', '?', '[', '#', '~']

/-- Model of POSIX shell single-word interpretation: outside quotes a
backslash escapes the next character and special characters end or alter the
word (modelled as failure, i.e. "broke out of the quoting"); inside single
quotes every character up to the closing quote is literal; an unterminated
quote or a trailing backslash is failure. -/
def posixUnquote : QuoteMode → List Char → Option (List Char)
  | QuoteMode.outside, [] => some []
  | QuoteMode.outside, '\'' :: r => posixUnquote QuoteMode.single r
  | QuoteMode.outside, ['\\'] => none
  | QuoteMode.outside, '\\' :: d :: r2 =>
    (posixUnquote QuoteMode.outside r2).map (fun w => d :: w)
  | QuoteMode.outside, c :: r =>
    if isShellSpecial c then none
    else (posixUnquote QuoteMode.outside r).map (fun w => c :: w)
  | QuoteMode.single, [] => none
  | QuoteMode.single, '\'' :: r => posixUnquote QuoteMode.outside r
  | QuoteMode.single, c :: r => (posixUnquote QuoteMode.single r).map (fun w => c :: w)

/-! ## Concrete fixtures used by witness theorems -/

/-- A concrete stand-in hash: the character codes of the string (injective). -/
def charCodes (s : String) : List Nat := s.data.map Char.toNat

/-- A concrete stand-in hash with fixed 32-byte output. -/
def flat32 (s : String) : List Nat := List.replicate 32 (s.length % 256)

/-- A headers map with no entries. -/
def noHeaders : String → Option String := fun _ => none

/-- A headers map carrying only an Issue Hook event header. -/
def issueHeaders : String → Option String :=
  fun k => if k = "x-gitlab-event" then some "Issue Hook" else none

/-- A sample payload. -/
def samplePayload : WebhookPayload :=
  { object_attributes := some { action := some "reopen", iid := some 42, extra := "a" }
    project := some "group/project" }

/-- Responses: server errors on attempts 1 and 2, success afterwards. -/
def c2Resp : Nat → FetchResp :=
  fun i => if i ≤ 2 then FetchResp.status 503 "e" else FetchResp.status 200 "ok"

/-- A fixed jitter sample. -/
def c2Jit : Nat → Nat := fun _ => 7

/-- Responses: server errors on every attempt. -/
def c2RespAllFail : Nat → FetchResp := fun i =>
  if i = 2 then FetchResp.status 429 "slow down" else FetchResp.status 500 "boom"

/-- Responses: a permanent 404 on the first attempt. -/
def c8Resp : Nat → FetchResp :=
  fun i => if i = 1 then FetchResp.status 404 "nf" else FetchResp.status 200 "ok"

/-- A concrete plugin module for the registry witness. -/
def witPlugin1 : PluginModule String Nat :=
  { manifest := { name := "tmux", slot := PluginSlot.runtime,
                  description := "d", version := "1" }
    create := fun _ => 1 }

/-- A second concrete plugin module for the registry witness. -/
def witPlugin2 : PluginModule String Nat :=
  { manifest := { name := "gitlab", slot := PluginSlot.tracker,
                  description := "d", version := "1" }
    create := fun _ => 2 }

/-- A concrete register-call sequence. -/
def witOps : List (PluginModule String Nat × Option String) :=
  [(witPlugin1, none), (witPlugin2, some "cfg")]

/-- An import function under which every builtin package is absent. -/
def witImpAbsent : String → Except String (PluginModule Nat Nat) :=
  fun _ => Except.error "absent"

/-- A trivial config extractor. -/
def witCfgFor : BuiltinEntry → Option Nat := fun _ => none

/-! ## Theorems -/

/-- Helper: the try/catch-wrapped `timingSafeEqual` decides buffer equality. -/
theorem timingSafeEqualChecked_iff (a b : List Nat) :
    timingSafeEqualChecked a b = true ↔ a = b := by
  unfold timingSafeEqualChecked
  by_cases h : a.length = b.length
  · simp [h]
  · simp [h]
    intro hab
    exact absurd (congrArg List.length hab) h

/-- Helper: characterization of `mapState` returning the closed state. -/
theorem mapState_closed_iff (st : Option String) :
    mapState st = IssueState.closedState ↔
      ∃ s, st = some s ∧ jsToLower s = "closed" := by
  cases st with
  | none =>
    simp only [mapState, Option.getD_none]
    constructor
    · intro h
      rw [if_neg (by decide : ¬jsToLower "" = "closed")] at h
      split at h <;> exact absurd h (by decide)
    · rintro ⟨s, hs, -⟩
      simp at hs
  | some s =>
    simp only [mapState, Option.getD_some]
    by_cases hc : jsToLower s = "closed"
    · rw [if_pos hc]
      simp [hc]
    · rw [if_neg hc]
      constructor
      · intro h
        split at h <;> exact absurd h (by decide)
      · rintro ⟨t, ht, hlow⟩
        rw [Option.some_inj] at ht
        subst ht
        exact absurd hlow hc

/-- Helper: the `isCompleted` check agrees with `mapState`. -/
theorem isCompletedCheck_iff (st : Option String) :
    isCompletedCheck st = true ↔ mapState st = IssueState.closedState := by
  rw [mapState_closed_iff]
  cases st with
  | none =>
    simp only [isCompletedCheck, jsString]
    constructor
    · intro h
      exact absurd h (by decide)
    · rintro ⟨s, hs, -⟩
      simp at hs
  | some s =>
    simp only [isCompletedCheck, jsString]
    rw [beq_iff_eq]
    constructor
    · intro h
      exact ⟨s, rfl, h⟩
    · rintro ⟨t, ht, hlow⟩
      rw [Option.some_inj] at ht
      subst ht
      exact hlow

/-- C9: the tracker's normalized issue record has state closed exactly when
the upstream state field is case-insensitively "closed" (and open for every
other value, including "opened", "reopened" or a missing field), and the
`isCompleted` check returns true exactly when the normalized state of the
same upstream data is closed. -/
theorem issue_state_normalization (d : GitLabIssueData) :
    ((issueFromData d).state = IssueState.closedState ↔
      ∃ s, d.state = some s ∧ jsToLower s = "closed") ∧
    (isCompletedCheck d.state = true ↔
      (issueFromData d).state = IssueState.closedState) :=
  ⟨mapState_closed_iff d.state, isCompletedCheck_iff d.state⟩

/-- Helper for C10: interpreting the escaped body of a string from inside
single quotes, followed by the closing quote, recovers the string. -/
theorem posixUnquote_escQuote (s : List Char) :
    posixUnquote QuoteMode.single (escQuote s ++ ['\'']) = some s := by
  induction s with
  | nil => rfl
  | cons c cs ih =>
    by_cases hc : c = '\''
    · subst hc
      have h1 : escQuote ('\'' :: cs) ++ ['\''] =
          '\'' :: '\\' :: '\'' :: '\'' :: (escQuote cs ++ ['\'']) := by
        simp [escQuote]
      rw [h1]
      show (posixUnquote QuoteMode.outside ('\'' :: (escQuote cs ++ ['\'']))).map
        (fun w => '\'' :: w) = some ('\'' :: cs)
      show ((posixUnquote QuoteMode.single (escQuote cs ++ ['\'']))).map
        (fun w => '\'' :: w) = some ('\'' :: cs)
      rw [ih]
      rfl
    · have h1 : escQuote (c :: cs) ++ ['\''] = c :: (escQuote cs ++ ['\'']) := by
        simp [escQuote, hc]
      rw [h1]
      simp [posixUnquote, hc, ih]

/-- C10: `shellEscape` wraps its argument in single quotes, escaping each
embedded quote as the four-character sequence quote-backslash-quote-quote,
and interpreting the result under POSIX shell quoting rules yields back
exactly the input as a single literal word — so no input can break out of
the quoting (no unquoted shell-special character is ever exposed and every
quote is terminated). -/
theorem shellEscape_roundtrip (s : List Char) :
    posixUnquote QuoteMode.outside (shellEscape s) = some s ∧
    shellEscapeStr (String.mk s) = String.mk (shellEscape s) := by
  constructor
  · have h : posixUnquote QuoteMode.outside (shellEscape s) =
        posixUnquote QuoteMode.single (escQuote s ++ ['\'']) := rfl
    rw [h]
    exact posixUnquote_escQuote s
  · rfl

/-- Helper: with no configured secret the validation block accepts. -/
theorem webhookValidate_none (sha256 : String → List Nat)
    (headers : String → Option String) :
    webhookValidate sha256 headers none = Except.ok () := rfl

/-- Helper: with a configured (truthy) secret the validation block reduces to
the timing-safe digest comparison. -/
theorem webhookValidate_some (sha256 : String → List Nat)
    (headers : String → Option String) (s : String) (hs : s ≠ "") :
    webhookValidate sha256 headers (some s) =
      if timingSafeEqualChecked (sha256 ((tokenHeaderOf headers).getD ""))
          (sha256 s) then Except.ok ()
      else Except.error "Invalid webhook token" := by
  unfold webhookValidate
  have ht : jsTruthy (some s) = true := by simp [jsTruthy, hs]
  rw [ht]
  simp

/-- Helper: `handleWebhook` succeeds exactly when validation succeeds. -/
theorem handleWebhook_isOk (sha256 : String → List Nat)
    (headers : String → Option String) (payload : WebhookPayload)
    (secret : Option String) :
    exceptOk (handleWebhook sha256 headers payload secret) =
      exceptOk (webhookValidate sha256 headers secret) := by
  unfold handleWebhook
  cases webhookValidate sha256 headers secret <;> rfl

/-- Helper: rejection of a configured secret is exactly digest mismatch. -/
theorem webhookValidate_rejects_iff (sha256 : String → List Nat)
    (headers : String → Option String) (s : String)
    (hinj : Function.Injective sha256) (hs : s ≠ "") :
    exceptOk (webhookValidate sha256 headers (some s)) = false ↔
      (tokenHeaderOf headers).getD "" ≠ s := by
  rw [webhookValidate_some sha256 headers s hs]
  by_cases hok : timingSafeEqualChecked (sha256 ((tokenHeaderOf headers).getD ""))
      (sha256 s) = true
  · rw [if_pos hok]
    have heq := hinj ((timingSafeEqualChecked_iff _ _).mp hok)
    simp [exceptOk, heq]
  · rw [if_neg hok]
    simp only [exceptOk]
    constructor
    · intro _ heq
      exact hok ((timingSafeEqualChecked_iff _ _).mpr (congrArg sha256 heq))
    · intro _
      trivial

/-- Helper: a defaulted-header mismatch is a missing or mismatched header. -/
theorem getD_ne_iff (a : Option String) (s : String) (hs : s ≠ "") :
    (a.getD "" ≠ s) ↔ (a = none ∨ a ≠ some s) := by
  cases a with
  | none =>
    constructor
    · intro _
      exact Or.inl rfl
    · intro _ h
      exact hs h.symm
  | some t =>
    constructor
    · intro h
      exact Or.inr fun hc => h (Option.some_inj.mp hc)
    · intro hor h
      cases hor with
      | inl h0 => exact Option.noConfusion h0
      | inr hne =>
        have ht : t = s := h
        exact hne (by rw [ht])

/-- C3: with a configured non-empty secret, `handleWebhook` rejects exactly
when the x-gitlab-token header is missing or differs from the secret
(assuming the hash is collision-free on the compared values); with no
configured secret it never rejects on the signature. -/
theorem webhook_reject_iff (sha256 : String → List Nat)
    (headers : String → Option String) (payload : WebhookPayload) (s : String)
    (hinj : Function.Injective sha256) (hs : s ≠ "") :
    (exceptOk (handleWebhook sha256 headers payload (some s)) = false ↔
      (tokenHeaderOf headers = none ∨ tokenHeaderOf headers ≠ some s)) ∧
    exceptOk (handleWebhook sha256 headers payload none) = true := by
  constructor
  · rw [handleWebhook_isOk]
    rw [webhookValidate_rejects_iff sha256 headers s hinj hs]
    exact getD_ne_iff (tokenHeaderOf headers) s hs
  · rw [handleWebhook_isOk]
    rfl

/-- Helper: the character-code hash is injective. -/
theorem charCodes_injective : Function.Injective charCodes := by
  intro a b h
  have h2 : a.data = b.data :=
    List.map_injective_iff.mpr (fun c d hcd => Char.ext (UInt32.ext hcd)) h
  cases a
  cases b
  exact congrArg String.mk h2

/-- Witness for C3: with secret "s3cr3t" and no headers the request is
rejected; with no secret the same request is accepted. -/
theorem webhook_reject_iff_witness :
    exceptOk (handleWebhook charCodes noHeaders samplePayload (some "s3cr3t")) = false ∧
    exceptOk (handleWebhook charCodes noHeaders samplePayload none) = true := by
  have h := webhook_reject_iff charCodes noHeaders samplePayload "s3cr3t"
    charCodes_injective (by decide)
  exact ⟨h.1.mpr (Or.inl rfl), h.2⟩

/-- C5: every request that passes validation yields exactly one of the three
normalized shapes, keyed on the x-gitlab-event header: "Issue Hook" maps to
an issue event with action defaulted to "unknown", "Merge Request Hook" to a
merge_request event, and anything else (including a missing header) to an
unknown event carrying the raw payload. -/
theorem webhook_event_shapes (sha256 : String → List Nat)
    (headers : String → Option String) (payload : WebhookPayload)
    (secret : Option String) (ev : GitLabWebhookEvent)
    (h : handleWebhook sha256 headers payload secret = Except.ok ev) :
    (eventNameOf headers = "Issue Hook" →
      ev = GitLabWebhookEvent.issue (actionOf payload)
        payload.object_attributes payload.project) ∧
    (eventNameOf headers = "Merge Request Hook" →
      ev = GitLabWebhookEvent.merge_request (actionOf payload)
        payload.object_attributes payload.project) ∧
    (eventNameOf headers ≠ "Issue Hook" → eventNameOf headers ≠ "Merge Request Hook" →
      ev = GitLabWebhookEvent.unknown payload) := by
  have hev : ev = normalizeWebhookEvent headers payload := by
    unfold handleWebhook at h
    cases hv : webhookValidate sha256 headers secret with
    | error e =>
      rw [hv] at h
      exact Except.noConfusion h
    | ok u =>
      rw [hv] at h
      injection h with h2
      exact h2.symm
  subst hev
  unfold normalizeWebhookEvent
  refine ⟨?_, ?_, ?_⟩
  · intro he
    rw [he]
    simp
  · intro he
    rw [he]
    rw [if_neg (by decide : ¬("Merge Request Hook" : String) = "Issue Hook")]
    simp
  · intro h1 h2
    rw [if_neg h1, if_neg h2]

/-- Witness for C5: a validated Issue Hook request yields the issue shape. -/
theorem webhook_event_shapes_witness :
    handleWebhook charCodes issueHeaders samplePayload none =
      Except.ok (GitLabWebhookEvent.issue "reopen"
        samplePayload.object_attributes samplePayload.project) := by
  have hok : handleWebhook charCodes issueHeaders samplePayload none =
      Except.ok (normalizeWebhookEvent issueHeaders samplePayload) := rfl
  have h := webhook_event_shapes charCodes issueHeaders samplePayload none
    (normalizeWebhookEvent issueHeaders samplePayload) hok
  rw [hok, h.1 (by decide)]
  decide

/-- C1: with a configured secret the validation block runs one fixed sequence
of operations for every headers map — read the header, normalize a missing
header to the empty string (no short-circuit), hash header and secret, and
compare the two fixed-length (32-byte) digests with a timing-safe comparison
— so the sequence is identical whether or not the header is present, the
comparison always receives 32/32-byte inputs, the rejection-path cost is one
constant, and the accept/reject decision is exactly the digest comparison. -/
theorem webhook_constant_time (sha256 : String → List Nat)
    (headers1 headers2 : String → Option String) (payload : WebhookPayload)
    (secret : String) (hlen : ∀ s, (sha256 s).length = 32) (hs : secret ≠ "") :
    webhookValidationOps sha256 headers1 secret =
      [CryptoOp.readTokenHeader, CryptoOp.normalizeHeader, CryptoOp.sha256Hash,
       CryptoOp.sha256Hash, CryptoOp.timingSafeCompare 32 32] ∧
    webhookValidationOps sha256 headers1 secret =
      webhookValidationOps sha256 headers2 secret ∧
    webhookValidationCost sha256 headers1 secret = 36 ∧
    (exceptOk (handleWebhook sha256 headers1 payload (some secret)) = false ↔
      timingSafeEqualChecked (sha256 ((tokenHeaderOf headers1).getD ""))
        (sha256 secret) = false) := by
  have hops : ∀ hdrs : String → Option String,
      webhookValidationOps sha256 hdrs secret =
        [CryptoOp.readTokenHeader, CryptoOp.normalizeHeader, CryptoOp.sha256Hash,
         CryptoOp.sha256Hash, CryptoOp.timingSafeCompare 32 32] := by
    intro hdrs
    have hz : webhookValidationOps sha256 hdrs secret =
        [CryptoOp.readTokenHeader, CryptoOp.normalizeHeader, CryptoOp.sha256Hash,
         CryptoOp.sha256Hash,
         CryptoOp.timingSafeCompare (sha256 ((tokenHeaderOf hdrs).getD "")).length
           (sha256 secret).length] := rfl
    rw [hz, hlen, hlen]
  refine ⟨hops headers1, (hops headers1).trans (hops headers2).symm, ?_, ?_⟩
  · unfold webhookValidationCost
    rw [hops headers1]
    rfl
  · rw [handleWebhook_isOk, webhookValidate_some sha256 headers1 secret hs]
    by_cases hok : timingSafeEqualChecked (sha256 ((tokenHeaderOf headers1).getD ""))
        (sha256 secret) = true
    · rw [if_pos hok]
      simp [exceptOk, hok]
    · rw [if_neg hok]
      simp [exceptOk, Bool.eq_false_iff, hok]

/-- Witness for C1: a 32-byte-digest hash yields the constant operation
sequence and cost on a concrete headers map. -/
theorem webhook_constant_time_witness :
    webhookValidationOps flat32 noHeaders "s3cr3t" =
      [CryptoOp.readTokenHeader, CryptoOp.normalizeHeader, CryptoOp.sha256Hash,
       CryptoOp.sha256Hash, CryptoOp.timingSafeCompare 32 32] ∧
    webhookValidationCost flat32 noHeaders "s3cr3t" = 36 := by
  have h := webhook_constant_time flat32 noHeaders issueHeaders samplePayload
    "s3cr3t" (fun s => by simp [flat32]) (by decide)
  exact ⟨h.1, h.2.2.1⟩

/-- Helper: one-step unfolding of the request loop. -/
theorem reqGo_step (m : Nat) (resp : Nat → FetchResp) (jitter : Nat → Nat)
    (fuel attempt : Nat) :
    reqGo m resp jitter (fuel + 1) attempt =
      match resp attempt with
      | FetchResp.status code body =>
        if 200 ≤ code ∧ code < 300 then
          ⟨Except.ok body, attempt, []⟩
        else if (code = 429 ∨ 500 ≤ code) ∧ attempt < m then
          ⟨(reqGo m resp jitter fuel (attempt + 1)).result,
           (reqGo m resp jitter fuel (attempt + 1)).attempts,
           (100 * 2 ^ (attempt - 1) + jitter attempt) ::
             (reqGo m resp jitter fuel (attempt + 1)).backoffs⟩
        else
          ⟨Except.error (ReqError.httpError code body), attempt, []⟩
      | FetchResp.netErr k =>
        if retryableNet k ∧ attempt < m then
          ⟨(reqGo m resp jitter fuel (attempt + 1)).result,
           (reqGo m resp jitter fuel (attempt + 1)).attempts,
           (100 * 2 ^ (attempt - 1) + jitter attempt) ::
             (reqGo m resp jitter fuel (attempt + 1)).backoffs⟩
        else
          ⟨Except.error (ReqError.netError k), attempt, []⟩ := rfl

/-- Helper for C2: if every attempt from `a` up to (but excluding) attempt
`m` yields a server error and attempt `m` succeeds, the loop returns the
success at attempt `m` with one exponential backoff per failed attempt. -/
theorem reqGo_server_then_success (m : Nat) (resp : Nat → FetchResp)
    (jitter : Nat → Nat) :
    ∀ (n a : Nat), 1 ≤ a → a + n = m →
      (∀ i, a ≤ i → i < m → isServerError (resp i) = true) →
      isSuccessResp (resp m) = true →
      reqGo m resp jitter (n + 1) a =
        ⟨Except.ok (respBody (resp m)), m,
         (List.range n).map (fun k => 100 * 2 ^ (a - 1 + k) + jitter (a + k))⟩ := by
  intro n
  induction n with
  | zero =>
    intro a ha1 ham hserv hsucc
    have ham' : a = m := by omega
    subst ham'
    rw [reqGo_step]
    cases hr : resp a with
    | status code body =>
      rw [hr] at hsucc
      simp only [isSuccessResp, Bool.and_eq_true, decide_eq_true_eq] at hsucc
      dsimp only
      rw [if_pos hsucc]
      simp [respBody]
    | netErr k =>
      rw [hr] at hsucc
      exact absurd hsucc (by simp [isSuccessResp])
  | succ n ih =>
    intro a ha1 ham hserv hsucc
    have ham2 : a < m := by omega
    have hsa := hserv a (le_refl a) ham2
    cases hr : resp a with
    | netErr k =>
      rw [hr] at hsa
      exact absurd hsa (by simp [isServerError])
    | status code body =>
      rw [hr] at hsa
      simp only [isServerError, Bool.or_eq_true, beq_iff_eq, decide_eq_true_eq] at hsa
      have hnot2xx : ¬(200 ≤ code ∧ code < 300) := by omega
      have hrest := ih (a + 1) (by omega) (by omega)
        (fun i hi1 hi2 => hserv i (by omega) hi2) hsucc
      rw [reqGo_step, hr]
      dsimp only
      rw [if_neg hnot2xx, if_pos (And.intro hsa ham2), hrest]
      have hlist : (List.range (n + 1)).map
            (fun k => 100 * 2 ^ (a - 1 + k) + jitter (a + k)) =
          (100 * 2 ^ (a - 1) + jitter a) ::
            (List.range n).map (fun k => 100 * 2 ^ (a + 1 - 1 + k) + jitter (a + 1 + k)) := by
        rw [List.range_succ_eq_map, List.map_cons, List.map_map]
        refine congrArg₂ List.cons (by norm_num) ?_
        apply List.map_congr_left
        intro k _
        have h1 : a - 1 + (k + 1) = a + 1 - 1 + k := by omega
        have h2 : a + (k + 1) = a + 1 + k := by omega
        simp only [Function.comp_apply, h1, h2]
      rw [hlist]

/-- Helper for C2: if every attempt from `a` through attempt `m` yields a
server error, the loop surfaces the HTTP error of attempt `m` after the
final attempt, with one exponential backoff per earlier attempt. -/
theorem reqGo_server_exhausts (m : Nat) (resp : Nat → FetchResp)
    (jitter : Nat → Nat) :
    ∀ (n a : Nat), 1 ≤ a → a + n = m →
      (∀ i, a ≤ i → i ≤ m → isServerError (resp i) = true) →
      ∃ s body, resp m = FetchResp.status s body ∧ (s = 429 ∨ 500 ≤ s) ∧
        reqGo m resp jitter (n + 1) a =
          ⟨Except.error (ReqError.httpError s body), m,
           (List.range n).map (fun k => 100 * 2 ^ (a - 1 + k) + jitter (a + k))⟩ := by
  intro n
  induction n with
  | zero =>
    intro a ha1 ham hserv
    have ham' : a = m := by omega
    subst ham'
    have hsa := hserv a (le_refl a) (le_refl a)
    cases hr : resp a with
    | netErr k =>
      rw [hr] at hsa
      exact absurd hsa (by simp [isServerError])
    | status code body =>
      rw [hr] at hsa
      simp only [isServerError, Bool.or_eq_true, beq_iff_eq, decide_eq_true_eq] at hsa
      refine ⟨code, body, rfl, hsa, ?_⟩
      have hnot2xx : ¬(200 ≤ code ∧ code < 300) := by omega
      have hnoretry : ¬((code = 429 ∨ 500 ≤ code) ∧ a < a) := by omega
      rw [reqGo_step, hr]
      dsimp only
      rw [if_neg hnot2xx, if_neg hnoretry]
      simp
  | succ n ih =>
    intro a ha1 ham hserv
    have ham2 : a < m := by omega
    have hsa := hserv a (le_refl a) (by omega)
    cases hr : resp a with
    | netErr k =>
      rw [hr] at hsa
      exact absurd hsa (by simp [isServerError])
    | status code body =>
      rw [hr] at hsa
      simp only [isServerError, Bool.or_eq_true, beq_iff_eq, decide_eq_true_eq] at hsa
      have hnot2xx : ¬(200 ≤ code ∧ code < 300) := by omega
      obtain ⟨s, b, hm, hs429, hrest⟩ := ih (a + 1) (by omega) (by omega)
        (fun i hi1 hi2 => hserv i (by omega) hi2)
      refine ⟨s, b, hm, hs429, ?_⟩
      rw [reqGo_step, hr]
      dsimp only
      rw [if_neg hnot2xx, if_pos (And.intro hsa ham2), hrest]
      have hlist : (List.range (n + 1)).map
            (fun k => 100 * 2 ^ (a - 1 + k) + jitter (a + k)) =
          (100 * 2 ^ (a - 1) + jitter a) ::
            (List.range n).map (fun k => 100 * 2 ^ (a + 1 - 1 + k) + jitter (a + 1 + k)) := by
        rw [List.range_succ_eq_map, List.map_cons, List.map_map]
        refine congrArg₂ List.cons (by norm_num) ?_
        apply List.map_congr_left
        intro k _
        have h1 : a - 1 + (k + 1) = a + 1 - 1 + k := by omega
        have h2 : a + (k + 1) = a + 1 + k := by omega
        simp only [Function.comp_apply, h1, h2]
      rw [hlist]

/-- C2: for maxRetries ≥ 1, a request seeing server errors (429/5xx) on
exactly the first maxRetries−1 attempts and a 2xx on attempt maxRetries
returns that success after exactly maxRetries attempts; a request seeing
server errors on all maxRetries attempts surfaces the final HTTP error — a
transient (429/5xx) external error — after exactly maxRetries attempts.  In
both cases the loop sleeps maxRetries−1 backoffs, the k-th being
100·2^k plus that attempt's jitter sample, hence bounded between 100·2^k
and 100·2^k+100 when jitter is below 100. -/
theorem gitlab_request_retry_bound (m : Nat) (resp : Nat → FetchResp)
    (jitter : Nat → Nat) (hm : 1 ≤ m) (hjit : ∀ i, jitter i < 100) :
    ((∀ i, 1 ≤ i → i < m → isServerError (resp i) = true) →
      isSuccessResp (resp m) = true →
      gitlabRequest m resp jitter =
        ⟨Except.ok (respBody (resp m)), m,
         (List.range (m - 1)).map (fun k => 100 * 2 ^ k + jitter (k + 1))⟩) ∧
    ((∀ i, 1 ≤ i → i ≤ m → isServerError (resp i) = true) →
      ∃ s body, resp m = FetchResp.status s body ∧ isTransientStatus s = true ∧
        gitlabRequest m resp jitter =
          ⟨Except.error (ReqError.httpError s body), m,
           (List.range (m - 1)).map (fun k => 100 * 2 ^ k + jitter (k + 1))⟩) ∧
    (∀ b ∈ (List.range (m - 1)).map (fun k => 100 * 2 ^ k + jitter (k + 1)),
      ∃ k, 100 * 2 ^ k ≤ b ∧ b < 100 * 2 ^ k + 100) := by
  have hfuel : m = (m - 1) + 1 := by omega
  have hshape : ∀ k : Nat, 100 * 2 ^ (1 - 1 + k) + jitter (1 + k) =
      100 * 2 ^ k + jitter (k + 1) := by
    intro k
    have h1 : 1 - 1 + k = k := by omega
    have h2 : 1 + k = k + 1 := by omega
    rw [h1, h2]
  refine ⟨?_, ?_, ?_⟩
  · intro hserv hsucc
    have h := reqGo_server_then_success m resp jitter (m - 1) 1 (le_refl 1)
      (by omega) hserv hsucc
    unfold gitlabRequest
    nth_rewrite 2 [hfuel]
    rw [h]
    refine congrArg (ReqOutcome.mk _ _) ?_
    exact List.map_congr_left fun k _ => hshape k
  · intro hserv
    obtain ⟨s, body, hm', hs, h⟩ := reqGo_server_exhausts m resp jitter (m - 1) 1
      (le_refl 1) (by omega) hserv
    refine ⟨s, body, hm', ?_, ?_⟩
    · simp only [isTransientStatus, Bool.or_eq_true, beq_iff_eq, decide_eq_true_eq]
      exact hs
    · unfold gitlabRequest
      nth_rewrite 2 [hfuel]
      rw [h]
      refine congrArg (ReqOutcome.mk _ _) ?_
      exact List.map_congr_left fun k _ => hshape k
  · intro b hb
    simp only [List.mem_map, List.mem_range] at hb
    obtain ⟨k, -, hk⟩ := hb
    exact ⟨k, by omega, by have := hjit (k + 1); omega⟩

/-- Witness for C2: with maxRetries = 3, failing twice with 503 then
succeeding returns the success in 3 attempts with backoffs 107 and 207;
failing on all three attempts (500, 429, 500) surfaces the final 500. -/
theorem gitlab_request_retry_bound_witness :
    gitlabRequest 3 c2Resp c2Jit =
      ⟨Except.ok "ok", 3, [107, 207]⟩ ∧
    gitlabRequest 3 c2RespAllFail c2Jit =
      ⟨Except.error (ReqError.httpError 500 "boom"), 3, [107, 207]⟩ := by
  constructor
  · have h := (gitlab_request_retry_bound 3 c2Resp c2Jit (by decide)
      (fun i => by simp [c2Jit])).1
      (fun i h1 h2 => by interval_cases i <;> decide) (by decide)
    rw [h]
    decide
  · obtain ⟨s, body, hm', -, h⟩ := (gitlab_request_retry_bound 3 c2RespAllFail c2Jit
      (by decide) (fun i => by simp [c2Jit])).2.1
      (fun i h1 h2 => by interval_cases i <;> decide)
    have hsb : s = 500 ∧ body = "boom" := by
      have : c2RespAllFail 3 = FetchResp.status 500 "boom" := by decide
      rw [this] at hm'
      exact ⟨(FetchResp.status.inj hm'.symm).1, (FetchResp.status.inj hm'.symm).2⟩
    rw [h, hsb.1, hsb.2]
    decide

/-- C8: an HTTP status in 400–499 other than 429 on the first attempt is
treated as permanent: the request throws the HTTP error after exactly one
attempt with no backoff, for every maxRetries ≥ 1; and whenever a first
HTTP response leads to more than one attempt, its status was 429 or 5xx. -/
theorem gitlab_request_no_retry_4xx (m : Nat) (resp : Nat → FetchResp)
    (jitter : Nat → Nat) (hm : 1 ≤ m) :
    (∀ s body, resp 1 = FetchResp.status s body → 400 ≤ s → s < 500 → s ≠ 429 →
      gitlabRequest m resp jitter =
        ⟨Except.error (ReqError.httpError s body), 1, []⟩) ∧
    (∀ s body, resp 1 = FetchResp.status s body →
      2 ≤ (gitlabRequest m resp jitter).attempts → (s = 429 ∨ 500 ≤ s)) := by
  have hfuel : m = (m - 1) + 1 := by omega
  constructor
  · intro s body hr h400 h500 hne
    unfold gitlabRequest
    nth_rewrite 2 [hfuel]
    rw [reqGo_step, hr]
    dsimp only
    rw [if_neg (by omega : ¬(200 ≤ s ∧ s < 300))]
    rw [if_neg (by omega : ¬((s = 429 ∨ 500 ≤ s) ∧ 1 < m))]
  · intro s body hr hatt
    by_contra hcon
    push_neg at hcon
    have hne : ¬((s = 429 ∨ 500 ≤ s) ∧ 1 < m) := by omega
    unfold gitlabRequest at hatt
    nth_rewrite 2 [hfuel] at hatt
    rw [reqGo_step, hr] at hatt
    dsimp only at hatt
    by_cases h2xx : 200 ≤ s ∧ s < 300
    · rw [if_pos h2xx] at hatt
      simp at hatt
    · rw [if_neg h2xx, if_neg hne] at hatt
      simp at hatt

/-- Witness for C8: a 404 on the first attempt with maxRetries = 3 throws
after exactly one attempt with no backoff. -/
theorem gitlab_request_no_retry_4xx_witness :
    gitlabRequest 3 c8Resp c2Jit =
      ⟨Except.error (ReqError.httpError 404 "nf"), 1, []⟩ := by
  exact (gitlab_request_no_retry_4xx 3 c8Resp c2Jit (by decide)).1 404 "nf"
    (by decide) (by decide) (by decide) (by decide)

/-- Helper: counting starts through a cons. -/
theorem countStarts_start (ms : Nat) (t : List TimerOp) :
    countStarts (TimerOp.start ms :: t) = countStarts t + 1 := by
  simp [countStarts]

/-- Helper: a cancel does not change the start count. -/
theorem countStarts_cancel (t : List TimerOp) :
    countStarts (TimerOp.cancel :: t) = countStarts t := by
  simp [countStarts]

/-- Helper: a start does not change the cancel count. -/
theorem countCancels_start (ms : Nat) (t : List TimerOp) :
    countCancels (TimerOp.start ms :: t) = countCancels t := by
  simp [countCancels]

/-- Helper: counting cancels through a cons. -/
theorem countCancels_cancel (t : List TimerOp) :
    countCancels (TimerOp.cancel :: t) = countCancels t + 1 := by
  simp [countCancels]

/-- Helper for C4: every gitlabClient.ts timer trace has one cancel per
start (the finally block runs on every exit from the try block) and starts
only the configured timeout. -/
theorem gitlabReqTimers_balanced (timeoutMs m : Nat) (resp : Nat → FetchResp) :
    ∀ fuel attempt,
      countStarts (gitlabReqTimers timeoutMs m resp fuel attempt) =
        countCancels (gitlabReqTimers timeoutMs m resp fuel attempt) ∧
      ∀ op ∈ gitlabReqTimers timeoutMs m resp fuel attempt,
        op = TimerOp.start timeoutMs ∨ op = TimerOp.cancel := by
  intro fuel
  induction fuel with
  | zero =>
    intro attempt
    refine ⟨rfl, ?_⟩
    intro op h
    simp [gitlabReqTimers] at h
  | succ fuel ih =>
    intro attempt
    have ihc := ih (attempt + 1)
    cases hr : resp attempt with
    | status code body =>
      by_cases h2xx : 200 ≤ code ∧ code < 300
      · simp [gitlabReqTimers, hr, if_pos h2xx, countStarts, countCancels]
      · by_cases hretry : (code = 429 ∨ 500 ≤ code) ∧ attempt < m
        · simp only [gitlabReqTimers, hr, if_neg h2xx, if_pos hretry]
          refine ⟨?_, ?_⟩
          · rw [countStarts_start, countStarts_cancel, countCancels_start,
              countCancels_cancel, ihc.1]
          · intro op h
            simp only [List.mem_cons] at h
            rcases h with h | h | h
            · exact Or.inl h
            · exact Or.inr h
            · exact ihc.2 op h
        · simp [gitlabReqTimers, hr, if_neg h2xx, if_neg hretry,
            countStarts, countCancels]
    | netErr k =>
      by_cases hretry : retryableNet k = true ∧ attempt < m
      · simp only [gitlabReqTimers, hr, if_pos hretry]
        refine ⟨?_, ?_⟩
        · rw [countStarts_start, countStarts_cancel, countCancels_start,
            countCancels_cancel, ihc.1]
        · intro op h
          simp only [List.mem_cons] at h
          rcases h with h | h | h
          · exact Or.inl h
          · exact Or.inr h
          · exact ihc.2 op h
      · simp [gitlabReqTimers, hr, if_neg hretry, countStarts, countCancels]

/-- C4 (amended): every request of the gitlabClient.ts client races the
fetch against the per-call timeout (timeoutMs, defaulting to 15000 ms in the
constructor) and on every completion path — success, error response,
network failure, or retry — the finally block cancels the pending timer, so
the trace balances every start with a cancel and no timer remains pending
when the request finishes. -/
theorem gitlabClient_request_timers_cancelled (timeoutMs m : Nat)
    (resp : Nat → FetchResp) :
    pendingTimers (gitlabRequestTimers timeoutMs m resp) = 0 ∧
    countStarts (gitlabRequestTimers timeoutMs m resp) =
      countCancels (gitlabRequestTimers timeoutMs m resp) ∧
    (∀ op ∈ gitlabRequestTimers timeoutMs m resp,
      op = TimerOp.start timeoutMs ∨ op = TimerOp.cancel) ∧
    effectiveTimeoutMs { timeoutMs := none, maxRetries := none } = 15000 := by
  have h := gitlabReqTimers_balanced timeoutMs m resp m 1
  refine ⟨?_, h.1, h.2, rfl⟩
  have h1 := h.1
  unfold pendingTimers gitlabRequestTimers
  unfold gitlabRequestTimers at h1
  omega

/-- C4 counterexample: the client.ts request loop — the client adapter.ts
actually imports — starts the per-attempt timeout timer but no completion
path cancels it: a request that succeeds on its first attempt finishes with
its timer still pending, refuting the claim for that client. -/
theorem client_request_timer_pending :
    clientRequestTimers 15000 3 (fun _ => FetchResp.status 200 "ok") =
      [TimerOp.start 15000] ∧
    pendingTimers (clientRequestTimers 15000 3
      (fun _ => FetchResp.status 200 "ok")) = 1 := by
  constructor
  · rfl
  · rfl

/-- Helper: two strings with equal character data are equal. -/
theorem stringDataInj (a b : String) (h : a.data = b.data) : a = b := by
  cases a
  cases b
  exact congrArg String.mk h

/-- Helper: the slot strings are pairwise distinct. -/
theorem slotStr_inj (s t : PluginSlot) (h : slotStr s = slotStr t) : s = t := by
  cases s <;> cases t <;> first
    | rfl
    | exact absurd h (by decide)

/-- Helper: no slot string contains a colon. -/
theorem slotStr_no_colon (s : PluginSlot) : ':' ∉ (slotStr s).data := by
  cases s <;> decide

/-- Helper: appending after the first colon is cancellative for colon-free
prefixes. -/
theorem append_colon_cancel :
    ∀ (a b n m2 : List Char), ':' ∉ a → ':' ∉ b →
      a ++ ':' :: n = b ++ ':' :: m2 → a = b ∧ n = m2 := by
  intro a
  induction a with
  | nil =>
    intro b n m2 _ hb h
    cases b with
    | nil =>
      simp only [List.nil_append, List.cons.injEq] at h
      exact ⟨rfl, h.2⟩
    | cons c bs =>
      simp only [List.nil_append, List.cons_append, List.cons.injEq] at h
      exact absurd (h.1 ▸ List.mem_cons_self c bs) hb
  | cons c as ih =>
    intro b n m2 ha hb h
    cases b with
    | nil =>
      simp only [List.cons_append, List.nil_append, List.cons.injEq] at h
      exact absurd (h.1 ▸ List.mem_cons_self c as) (h.1 ▸ ha)
    | cons d bs =>
      simp only [List.cons_append, List.cons.injEq] at h
      obtain ⟨hcd, h2⟩ := h
      have hta : ':' ∉ as := fun hm => ha (List.mem_cons_of_mem c hm)
      have htb : ':' ∉ bs := fun hm => hb (List.mem_cons_of_mem d hm)
      obtain ⟨h3, h4⟩ := ih bs n m2 hta htb h2
      exact ⟨by rw [hcd, h3], h4⟩

/-- Helper: map keys determine slot and name. -/
theorem makeKey_inj (s t : PluginSlot) (n m2 : String)
    (h : makeKey s n = makeKey t m2) : s = t ∧ n = m2 := by
  unfold makeKey at h
  have hd : (slotStr s).data ++ ':' :: n.data = (slotStr t).data ++ ':' :: m2.data := by
    have h2 := congrArg String.data h
    simpa [String.data_append] using h2
  obtain ⟨h1, h2⟩ := append_colon_cancel _ _ _ _ (slotStr_no_colon s)
    (slotStr_no_colon t) hd
  exact ⟨slotStr_inj s t (stringDataInj _ _ h1), stringDataInj _ _ h2⟩

/-- Helper: a key starts with a slot's list prefix exactly for its own slot. -/
theorem jsStartsWith_makeKey (s t : PluginSlot) (n : String) :
    jsStartsWith (makeKey t n) (slotStr s ++ ":") = true ↔ s = t := by
  unfold jsStartsWith makeKey
  rw [List.isPrefixOf_iff_prefix]
  constructor
  · intro hpre
    obtain ⟨rest, hrest⟩ := hpre
    have hd : (slotStr s).data ++ ':' :: rest = (slotStr t).data ++ ':' :: n.data := by
      have h2 := hrest
      simpa [String.data_append, List.append_assoc] using h2
    exact slotStr_inj s t (stringDataInj _ _
      (append_colon_cancel _ _ _ _ (slotStr_no_colon s) (slotStr_no_colon t) hd).1)
  · rintro rfl
    exact ⟨n.data, by simp [String.data_append, List.append_assoc]⟩

/-- Helper: replacing the value at `k` makes `k` find the new value, if some
entry carries `k`. -/
theorem find?_replace_self {I : Type} (k : String) (v : PluginManifest × I) :
    ∀ r : Registry I, (r.any fun p => p.1 == k) = true →
      ((r.map fun p => if p.1 == k then (k, v) else p).find?
        (fun p => p.1 == k)) = some (k, v) := by
  intro r
  induction r with
  | nil =>
    intro h
    simp at h
  | cons hd tl ih =>
    intro h
    by_cases hh : (hd.1 == k) = true
    · simp only [List.map_cons, if_pos hh]
      exact List.find?_cons_of_pos _ (by simp)
    · simp only [List.map_cons, if_neg hh]
      rw [List.find?_cons_of_neg _ (by simpa using hh)]
      apply ih
      simp only [List.any_cons, Bool.or_eq_true] at h
      rcases h with h | h
      · exact absurd h hh
      · exact h

/-- Helper: replacing the value at `k` does not affect lookups of other keys. -/
theorem find?_replace_ne {I : Type} (k k' : String) (v : PluginManifest × I)
    (hne : k' ≠ k) :
    ∀ r : Registry I,
      ((r.map fun p => if p.1 == k then (k, v) else p).find?
        (fun p => p.1 == k')) = r.find? (fun p => p.1 == k') := by
  intro r
  induction r with
  | nil => rfl
  | cons hd tl ih =>
    by_cases hh : (hd.1 == k) = true
    · have hdk : hd.1 = k := by simpa using hh
      simp only [List.map_cons, if_pos hh]
      rw [List.find?_cons_of_neg _ (by simp; exact fun h => hne h.symm)]
      rw [List.find?_cons_of_neg _ (by simp [hdk]; exact fun h => hne h.symm)]
      exact ih
    · simp only [List.map_cons, if_neg hh]
      by_cases hh' : (hd.1 == k') = true
      · have e1 : ((hd :: List.map (fun p => if (p.1 == k) = true then (k, v) else p) tl).find?
            (fun p => p.1 == k')) = some hd := List.find?_cons_of_pos _ hh'
        have e2 : ((hd :: tl).find? fun p => p.1 == k') = some hd :=
          List.find?_cons_of_pos _ hh'
        rw [e1, e2]
      · rw [List.find?_cons_of_neg _ (by simpa using hh'),
          List.find?_cons_of_neg _ (by simpa using hh')]
        exact ih

/-- Helper: `Map.set` then `Map.get` at the same key yields the new value. -/
theorem mapGet_set_self {I : Type} (r : Registry I) (k : String)
    (v : PluginManifest × I) : mapGet (mapSet r k v) k = some v := by
  unfold mapGet mapSet
  by_cases hany : (r.any fun p => p.1 == k) = true
  · rw [if_pos hany, find?_replace_self k v r hany]
    rfl
  · rw [if_neg hany, List.find?_append]
    have hnone : r.find? (fun p => p.1 == k) = none := by
      rw [List.find?_eq_none]
      intro x hx hpx
      exact hany (List.any_eq_true.mpr ⟨x, hx, hpx⟩)
    rw [hnone]
    simp

/-- Helper: `Map.set` does not affect `Map.get` at other keys. -/
theorem mapGet_set_ne {I : Type} (r : Registry I) (k k' : String)
    (v : PluginManifest × I) (hne : k' ≠ k) :
    mapGet (mapSet r k v) k' = mapGet r k' := by
  unfold mapGet mapSet
  by_cases hany : (r.any fun p => p.1 == k) = true
  · rw [if_pos hany, find?_replace_ne k k' v hne r]
  · rw [if_neg hany, List.find?_append]
    have hsingle : (([(k, v)] : Registry I).find? fun p => p.1 == k') = none := by
      rw [List.find?_eq_none]
      intro x hx hpx
      simp at hx
      rw [hx] at hpx
      simp at hpx
      exact hne hpx.symm
    rw [hsingle]
    cases r.find? fun p => p.1 == k' <;> rfl

/-- Helper: registering a plugin makes its own (slot, name) resolve to the
constructed instance. -/
theorem registryGet_register_self {C I : Type} (p : PluginModule C I)
    (cfg : Option C) (r : Registry I) :
    registryGet p.manifest.slot p.manifest.name (registryRegister p cfg r) =
      some (p.create cfg) := by
  unfold registryGet registryRegister
  rw [mapGet_set_self]
  rfl

/-- Helper: registering a plugin does not affect other (slot, name) lookups. -/
theorem registryGet_register_other {C I : Type} (p : PluginModule C I)
    (cfg : Option C) (r : Registry I) (slot : PluginSlot) (name : String)
    (h : ¬(p.manifest.slot = slot ∧ p.manifest.name = name)) :
    registryGet slot name (registryRegister p cfg r) = registryGet slot name r := by
  unfold registryGet registryRegister
  rw [mapGet_set_ne]
  intro heq
  obtain ⟨h1, h2⟩ := makeKey_inj _ _ _ _ heq
  exact h ⟨h1.symm, h2.symm⟩

/-- Helper: a (slot, name) pair registered by no operation resolves to null. -/
theorem applyRegisters_get_none {C I : Type}
    (ops : List (PluginModule C I × Option C)) (slot : PluginSlot) (name : String)
    (h : ∀ op ∈ ops, ¬(op.1.manifest.slot = slot ∧ op.1.manifest.name = name)) :
    registryGet slot name (applyRegisters ops) = none := by
  have main : ∀ (l : List (PluginModule C I × Option C)) (r : Registry I),
      (∀ op ∈ l, ¬(op.1.manifest.slot = slot ∧ op.1.manifest.name = name)) →
      registryGet slot name r = none →
      registryGet slot name (l.foldl (fun acc op => registryRegister op.1 op.2 acc) r) = none := by
    intro l
    induction l with
    | nil =>
      intro r _ h0
      exact h0
    | cons op ops2 ih =>
      intro r hl h0
      simp only [List.foldl_cons]
      apply ih _ (fun o ho => hl o (List.mem_cons_of_mem _ ho))
      rw [registryGet_register_other op.1 op.2 r slot name
        (hl op (List.mem_cons_self _ _))]
      exact h0
  exact main ops (emptyRegistry I) h rfl

/-- Helper: setting a fresh key appends the entry. -/
theorem mapSet_fresh {I : Type} (r : Registry I) (k : String)
    (v : PluginManifest × I) (h : (r.any fun p => p.1 == k) = false) :
    mapSet r k v = r ++ [(k, v)] := by
  unfold mapSet
  rw [h]
  rfl

/-- Helper: listing a slot over an appended entry. -/
theorem registryList_append {I : Type} (slot : PluginSlot) (r : Registry I)
    (k : String) (v : PluginManifest × I) :
    registryList slot (r ++ [(k, v)]) =
      registryList slot r ++
        (if jsStartsWith k (slotStr slot ++ ":") then [v.1] else []) := by
  unfold registryList
  rw [List.filter_append, List.map_append]
  congr 1
  by_cases h : jsStartsWith k (slotStr slot ++ ":") = true
  · simp [List.filter, h]
  · simp [List.filter, h]

/-- Helper: `list(slot)` over a sequence of registrations with pairwise
distinct keys returns exactly the manifests registered under that slot, in
registration order. -/
theorem applyRegisters_list {C I : Type}
    (ops : List (PluginModule C I × Option C)) (slot : PluginSlot)
    (hnodup : (ops.map fun op => makeKey op.1.manifest.slot op.1.manifest.name).Nodup) :
    registryList slot (applyRegisters ops) =
      (ops.filter fun op => op.1.manifest.slot == slot).map fun op => op.1.manifest := by
  have main : ∀ (l : List (PluginModule C I × Option C)) (r : Registry I),
      (l.map fun op => makeKey op.1.manifest.slot op.1.manifest.name).Nodup →
      (∀ op ∈ l, (r.any fun p =>
        p.1 == makeKey op.1.manifest.slot op.1.manifest.name) = false) →
      registryList slot (l.foldl (fun acc op => registryRegister op.1 op.2 acc) r) =
        registryList slot r ++
          (l.filter fun op => op.1.manifest.slot == slot).map fun op => op.1.manifest := by
    intro l
    induction l with
    | nil =>
      intro r _ _
      simp
    | cons op ops2 ih =>
      intro r hnd hfresh
      rw [List.map_cons, List.nodup_cons] at hnd
      have hfr := hfresh op (List.mem_cons_self _ _)
      have hreg : registryRegister op.1 op.2 r =
          r ++ [(makeKey op.1.manifest.slot op.1.manifest.name,
                 (op.1.manifest, op.1.create op.2))] :=
        mapSet_fresh r _ _ hfr
      simp only [List.foldl_cons]
      rw [hreg]
      rw [ih _ hnd.2 ?hfresh2]
      case hfresh2 =>
        intro o ho
        rw [List.any_append]
        have h1 : (r.any fun p =>
            p.1 == makeKey o.1.manifest.slot o.1.manifest.name) = false :=
          hfresh o (List.mem_cons_of_mem _ ho)
        have h2 : ((
            [(makeKey op.1.manifest.slot op.1.manifest.name,
              (op.1.manifest, op.1.create op.2))] : Registry I).any fun p =>
            p.1 == makeKey o.1.manifest.slot o.1.manifest.name) = false := by
          simp only [List.any_cons, List.any_nil, Bool.or_false]
          rw [beq_eq_false_iff_ne]
          intro heq
          exact hnd.1 (heq ▸ List.mem_map_of_mem
            (fun q => makeKey q.1.manifest.slot q.1.manifest.name) ho)
        rw [h1, h2]
        rfl
      rw [registryList_append, List.append_assoc]
      congr 1
      by_cases hslot : (op.1.manifest.slot == slot) = true
      · have heq : slot = op.1.manifest.slot := (beq_iff_eq.mp hslot).symm
        rw [if_pos ((jsStartsWith_makeKey slot op.1.manifest.slot
          op.1.manifest.name).mpr heq)]
        have hf : ((op :: ops2).filter fun o => o.1.manifest.slot == slot) =
            op :: (ops2.filter fun o => o.1.manifest.slot == slot) :=
          List.filter_cons_of_pos hslot
        rw [hf, List.map_cons]
        rfl
      · have hne : ¬slot = op.1.manifest.slot := fun h =>
          hslot (beq_iff_eq.mpr h.symm)
        rw [if_neg (fun h => hne ((jsStartsWith_makeKey slot op.1.manifest.slot
          op.1.manifest.name).mp h))]
        have hf : ((op :: ops2).filter fun o => o.1.manifest.slot == slot) =
            ops2.filter fun o => o.1.manifest.slot == slot :=
          List.filter_cons_of_neg (by simpa using hslot)
        rw [hf]
        rfl
  have h0 : ∀ op ∈ ops, ((emptyRegistry I).any fun p =>
      p.1 == makeKey op.1.manifest.slot op.1.manifest.name) = false :=
    fun op _ => rfl
  exact main ops (emptyRegistry I) hnodup h0

/-- C6: `register` binds the module's manifest (slot, name) to exactly the
one instance constructed by `create(config)`; `get` on a never-registered
(slot, name) returns null; `list(slot)` over registrations with distinct
keys returns exactly the manifests registered under that slot; and `get`
and `list` leave the registry unchanged. -/
theorem plugin_registry_spec (C I : Type) (p : PluginModule C I)
    (config : Option C) (r : Registry I)
    (ops : List (PluginModule C I × Option C)) (slot : PluginSlot) (name : String) :
    (registryGet p.manifest.slot p.manifest.name (registryRegister p config r) =
      some (p.create config)) ∧
    ((∀ op ∈ ops, ¬(op.1.manifest.slot = slot ∧ op.1.manifest.name = name)) →
      registryGet slot name (applyRegisters ops) = none) ∧
    ((ops.map fun op => makeKey op.1.manifest.slot op.1.manifest.name).Nodup →
      registryList slot (applyRegisters ops) =
        (ops.filter fun op => op.1.manifest.slot == slot).map fun op => op.1.manifest) ∧
    (registryGetSt slot name r).2 = r ∧ (registryListSt slot r).2 = r :=
  ⟨registryGet_register_self p config r,
   fun h => applyRegisters_get_none ops slot name h,
   fun h => applyRegisters_list ops slot h,
   rfl, rfl⟩

/-- Witness for C6: registering two concrete plugins, the tracker plugin's
instance is found under its key, an unregistered (slot, name) yields null,
and listing the tracker slot yields exactly the one tracker manifest. -/
theorem plugin_registry_spec_witness :
    registryGet PluginSlot.runtime "tmux"
      (registryRegister witPlugin1 none (emptyRegistry Nat)) = some 1 ∧
    registryGet PluginSlot.scm "github" (applyRegisters witOps) = none ∧
    registryList PluginSlot.tracker (applyRegisters witOps) =
      [witPlugin2.manifest] := by
  have h1 := plugin_registry_spec String Nat witPlugin1 none (emptyRegistry Nat)
    witOps PluginSlot.scm "github"
  have h2 := plugin_registry_spec String Nat witPlugin1 none (emptyRegistry Nat)
    witOps PluginSlot.tracker "github"
  refine ⟨h1.1, h1.2.1 ?_, ?_⟩
  · intro op hop
    simp only [witOps, List.mem_cons, List.mem_singleton] at hop
    rcases hop with rfl | rfl | h
    · decide
    · decide
    · exact absurd h (by simp)
  · rw [h2.2.2.1 (by decide)]
    decide

/-- Helper: the try/catch form of the loading loop never surfaces an error
and computes the same registry as the plain fold. -/
theorem loadBuiltinsFold_ok {C I : Type}
    (imp : String → Except String (PluginModule C I))
    (cfgFor : BuiltinEntry → Option C) :
    ∀ (entries : List BuiltinEntry) (r : Registry I),
      (entries.foldlM (fun acc b =>
        match imp b.pkg with
        | Except.error _ => Except.ok acc
        | Except.ok m => Except.ok (registryRegister m (cfgFor b) acc)) r :
          Except String (Registry I)) =
        Except.ok (entries.foldl (loadBuiltinsStep imp cfgFor) r) := by
  intro entries
  induction entries with
  | nil =>
    intro r
    rfl
  | cons e es ih =>
    intro r
    rw [List.foldlM_cons, List.foldl_cons]
    unfold loadBuiltinsStep
    cases him : imp e.pkg with
    | error err => exact ih r
    | ok m => exact ih (registryRegister m (cfgFor e) r)

/-- Helper: folding the loading loop over entries whose successfully
loaded modules all carry keys different from `key` preserves an absent
`key`. -/
theorem loadFold_preserve_none {C I : Type}
    (imp : String → Except String (PluginModule C I))
    (cfgFor : BuiltinEntry → Option C) (key : String) :
    ∀ (entries : List BuiltinEntry) (r : Registry I),
      (∀ e ∈ entries, ∀ mo, imp e.pkg = Except.ok mo →
        makeKey mo.manifest.slot mo.manifest.name ≠ key) →
      mapGet r key = none →
      mapGet (entries.foldl (loadBuiltinsStep imp cfgFor) r) key = none := by
  intro entries
  induction entries with
  | nil =>
    intro r _ h0
    exact h0
  | cons e es ih =>
    intro r he h0
    rw [List.foldl_cons]
    apply ih _ (fun e2 he2 mo hmo => he e2 (List.mem_cons_of_mem _ he2) mo hmo)
    unfold loadBuiltinsStep
    cases him : imp e.pkg with
    | error err => exact h0
    | ok mo =>
      unfold registryRegister
      rw [mapGet_set_ne _ _ _ _
        (Ne.symm (he e (List.mem_cons_self _ _) mo him))]
      exact h0

/-- Helper: folding the loading loop over entries whose successfully
loaded modules all carry keys different from `key` preserves the value
bound at `key`. -/
theorem loadFold_preserve_some {C I : Type}
    (imp : String → Except String (PluginModule C I))
    (cfgFor : BuiltinEntry → Option C) (key : String) (v : PluginManifest × I) :
    ∀ (entries : List BuiltinEntry) (r : Registry I),
      (∀ e ∈ entries, ∀ mo, imp e.pkg = Except.ok mo →
        makeKey mo.manifest.slot mo.manifest.name ≠ key) →
      mapGet r key = some v →
      mapGet (entries.foldl (loadBuiltinsStep imp cfgFor) r) key = some v := by
  intro entries
  induction entries with
  | nil =>
    intro r _ h0
    exact h0
  | cons e es ih =>
    intro r he h0
    rw [List.foldl_cons]
    apply ih _ (fun e2 he2 mo hmo => he e2 (List.mem_cons_of_mem _ he2) mo hmo)
    unfold loadBuiltinsStep
    cases him : imp e.pkg with
    | error err => exact h0
    | ok mo =>
      unfold registryRegister
      rw [mapGet_set_ne _ _ _ _
        (Ne.symm (he e (List.mem_cons_self _ _) mo him))]
      exact h0

/-- Helper: the static builtin manifest has pairwise distinct (slot, name)
keys. -/
theorem builtin_keys_nodup :
    (BUILTIN_PLUGINS.map fun b => makeKey b.slot b.name).Nodup := by
  decide

/-- C7: loading builtins never throws for any pattern of absent packages
(the per-iteration try/catch absorbs import failures); an absent builtin is
simply left unregistered — its (slot, name) lookup later returns null —
while loading continues and every importable builtin is registered with its
constructed instance (assuming imported modules carry the manifest declared
in the static list). -/
theorem load_builtins_tolerates_absent (C I : Type)
    (imp : String → Except String (PluginModule C I))
    (cfgFor : BuiltinEntry → Option C)
    (hman : ∀ b ∈ BUILTIN_PLUGINS, ∀ mo, imp b.pkg = Except.ok mo →
      mo.manifest.slot = b.slot ∧ mo.manifest.name = b.name) :
    loadBuiltinsTry imp cfgFor (emptyRegistry I) =
      Except.ok (loadBuiltins imp cfgFor (emptyRegistry I)) ∧
    (∀ b ∈ BUILTIN_PLUGINS, (∃ msg, imp b.pkg = Except.error msg) →
      registryGet b.slot b.name (loadBuiltins imp cfgFor (emptyRegistry I)) = none) ∧
    (∀ b ∈ BUILTIN_PLUGINS, ∀ mo, imp b.pkg = Except.ok mo →
      registryGet b.slot b.name (loadBuiltins imp cfgFor (emptyRegistry I)) =
        some (mo.create (cfgFor b))) := by
  refine ⟨loadBuiltinsFold_ok imp cfgFor BUILTIN_PLUGINS (emptyRegistry I), ?_, ?_⟩
  · rintro b hb ⟨msg, herr⟩
    obtain ⟨pre, post, hsplit⟩ := List.append_of_mem hb
    have hnd := builtin_keys_nodup
    rw [hsplit, List.map_append, List.map_cons, List.nodup_middle,
      List.nodup_cons] at hnd
    have hkey := hnd.1
    have hnone : mapGet (BUILTIN_PLUGINS.foldl (loadBuiltinsStep imp cfgFor)
        (emptyRegistry I)) (makeKey b.slot b.name) = none := by
      apply loadFold_preserve_none imp cfgFor _ BUILTIN_PLUGINS (emptyRegistry I)
        ?_ rfl
      intro e he mo hmo heqkey
      have hm := hman e he mo hmo
      rw [hm.1, hm.2] at heqkey
      have he2 : e ∈ pre ++ b :: post := by
        rw [← hsplit]
        exact he
      rcases List.mem_append.mp he2 with hepre | hecons
      · exact hkey (List.mem_append.mpr (Or.inl
          (heqkey ▸ List.mem_map_of_mem _ hepre)))
      · rcases List.mem_cons.mp hecons with rfl | hepost
        · rw [herr] at hmo
          exact Except.noConfusion hmo
        · exact hkey (List.mem_append.mpr (Or.inr
            (heqkey ▸ List.mem_map_of_mem _ hepost)))
    unfold registryGet loadBuiltins
    rw [hnone]
    rfl
  · intro b hb mo hmo
    obtain ⟨pre, post, hsplit⟩ := List.append_of_mem hb
    have hnd := builtin_keys_nodup
    rw [hsplit, List.map_append, List.map_cons, List.nodup_middle,
      List.nodup_cons] at hnd
    have hkey := hnd.1
    have hm := hman b hb mo hmo
    unfold loadBuiltins registryGet
    rw [hsplit, List.foldl_append, List.foldl_cons]
    have hstep : loadBuiltinsStep imp cfgFor
        (pre.foldl (loadBuiltinsStep imp cfgFor) (emptyRegistry I)) b =
        registryRegister mo (cfgFor b)
          (pre.foldl (loadBuiltinsStep imp cfgFor) (emptyRegistry I)) := by
      unfold loadBuiltinsStep
      rw [hmo]
    rw [hstep]
    have hsome : mapGet (post.foldl (loadBuiltinsStep imp cfgFor)
        (registryRegister mo (cfgFor b)
          (pre.foldl (loadBuiltinsStep imp cfgFor) (emptyRegistry I))))
        (makeKey b.slot b.name) = some (mo.manifest, mo.create (cfgFor b)) := by
      refine loadFold_preserve_some imp cfgFor (makeKey b.slot b.name)
        (mo.manifest, mo.create (cfgFor b)) post _ ?_ ?_
      · intro e he2 mo2 hmo2 heqkey
        have hem : e ∈ BUILTIN_PLUGINS := by
          rw [hsplit]
          exact List.mem_append.mpr (Or.inr (List.mem_cons_of_mem _ he2))
        have hm2 := hman e hem mo2 hmo2
        rw [hm2.1, hm2.2] at heqkey
        exact hkey (List.mem_append.mpr (Or.inr
          (heqkey ▸ List.mem_map_of_mem _ he2)))
      · unfold registryRegister
        rw [hm.1, hm.2]
        exact mapGet_set_self _ _ _
    rw [hsome]
    rfl

/-- Witness for C7: with every builtin package absent, loading completes
without error and the tmux runtime lookup resolves to nothing. -/
theorem load_builtins_tolerates_absent_witness :
    loadBuiltinsTry witImpAbsent witCfgFor (emptyRegistry Nat) =
      Except.ok (loadBuiltins witImpAbsent witCfgFor (emptyRegistry Nat)) ∧
    registryGet PluginSlot.runtime "tmux"
      (loadBuiltins witImpAbsent witCfgFor (emptyRegistry Nat)) = none := by
  have h := load_builtins_tolerates_absent Nat Nat witImpAbsent witCfgFor
    (fun b hb mo hmo => Except.noConfusion hmo)
  exact ⟨h.1, h.2.1
    ⟨PluginSlot.runtime, "tmux", "@agent-orchestrator/plugin-runtime-tmux"⟩
    (by decide) ⟨"absent", rfl⟩⟩
